import Mathlib

/-!
Verification of the session-authentication core of the HTTP-Server repository.

The embedding models:
* `src/auth.ts` — `makeJWT`, `validateJWT`, `getBearerToken`;
* `src/db/queries/refreshToken.ts` — `createRefreshToken`, `revokeRefreshToken`;
* `src/db/queries/users.ts` — `getUserFromRefreshToken`;
* `src/index.ts` — the response shaping of `handleLogin` / `handleCreateUser`
  and the store behaviour of `handleRefresh`.

JSON web tokens are modelled with an idealized symmetric MAC: the signature of
a payload under a secret is the pair `(payload, secret)` itself, so a signature
verifies exactly when it was produced from the same payload and the same
secret (collision-freeness and unforgeability of HMAC-SHA256 are assumed).
Timestamps are integers (Unix seconds); `now` is passed explicitly.
-/

/-- A JSON value sitting in the `sub` claim: either a string or some
non-string JSON value (`jsonwebtoken` only guarantees `sub` is a string when
the signer put a string there; `validateJWT` checks `typeof decoded.sub`). -/
inductive SubClaim where
  | jstr (s : String)
  | jother
deriving DecidableEq, Repr

/-- The claim set of `src/auth.ts` (`Pick<JwtPayload, 'iss' | 'sub' | 'iat' | 'exp'>`).
Every claim is optional: an arbitrary token presented for verification need not
carry any of them. -/
structure Payload where
  iss : Option String
  sub : Option SubClaim
  iat : Option Int
  exp : Option Int
deriving DecidableEq, Repr

/-- A signed token: the claim set together with its signature.  The signature
is the idealized MAC described in the header comment. -/
structure Token where
  payload : Payload
  sig : Payload × String
deriving DecidableEq, Repr

/-- The signature of `tok` verifies under `secret`: the idealized MAC of the
carried payload under `secret` equals the carried signature, and the secret is
usable (`jsonwebtoken` throws on a falsy `secretOrPrivateKey`). -/
def sigValid (tok : Token) (secret : String) : Prop :=
  tok.sig = (tok.payload, secret) ∧ secret ≠ ""

instance (tok : Token) (secret : String) : Decidable (sigValid tok secret) :=
  inferInstanceAs (Decidable (_ ∧ _))

/-- `jwt.verify(tokenString, secret)` at time `now`: rejects a bad signature;
then, when an `exp` claim is present, rejects iff `now >= exp` (the library's
`TokenExpiredError` condition); on success returns the decoded payload. -/
def jwtVerify (tok : Token) (secret : String) (now : Int) : Option Payload :=
  if sigValid tok secret then
    match tok.payload.exp with
    | some e => if e ≤ now then none else some tok.payload
    | none => some tok.payload
  else none

/-- `makeJWT` from `src/auth.ts`: builds
`{iss: 'chirpy', sub: userID, iat: now, exp: now + expiresIn}` and signs it.
Returns `none` when `jwt.sign` would throw (falsy secret). -/
def makeJWTPayload (userID : String) (expiresIn : Int) (now : Int) : Payload :=
  { iss := some "chirpy", sub := some (SubClaim.jstr userID),
    iat := some now, exp := some (now + expiresIn) }

def makeJWT (userID : String) (expiresIn : Int) (secret : String) (now : Int) :
    Option Token :=
  if secret = "" then none
  else
    some { payload := makeJWTPayload userID expiresIn now,
           sig := (makeJWTPayload userID expiresIn now, secret) }

/-- `validateJWT` from `src/auth.ts`: verifies the token, then requires
`decoded.sub` to be present, a string, and truthy (`!decoded.sub` rejects the
empty string).  Every failure path throws the single
`Error('Error validating token')`, modelled as the single value `none`. -/
def validateJWT (tok : Token) (secret : String) (now : Int) : Option String :=
  match jwtVerify tok secret now with
  | none => none
  | some decoded =>
    match decoded.sub with
    | some (SubClaim.jstr s) => if s = "" then none else some s
    | _ => none

/-- `getBearerToken` from `src/auth.ts`: the header must be present and start
with the exact string `Bearer ` (7 characters); the remainder is the token.
Both failure paths throw a plain `Error`, modelled as the single value `none`. -/
def getBearerToken (authorization : Option String) : Option String :=
  match authorization with
  | none => none
  | some s =>
    if "Bearer ".data.isPrefixOf s.data then some (String.mk (s.data.drop 7))
    else none

section JWTClaims

/-- The subject check of `validateJWT` succeeds: `sub` is present, a string,
and non-empty. -/
def subOk (p : Payload) (u : String) : Prop :=
  p.sub = some (SubClaim.jstr u) ∧ u ≠ ""

instance (p : Payload) (u : String) : Decidable (subOk p u) :=
  inferInstanceAs (Decidable (_ ∧ _))

/-- The token carries an `exp` claim that has elapsed at `now`. -/
def expElapsed (p : Payload) (now : Int) : Prop :=
  ∃ e, p.exp = some e ∧ e ≤ now

theorem jwtVerify_eq_some (tok : Token) (secret : String) (now : Int)
    (p : Payload) :
    jwtVerify tok secret now = some p ↔
      sigValid tok secret ∧ ¬ expElapsed tok.payload now ∧ p = tok.payload := by
  unfold jwtVerify expElapsed
  by_cases hs : sigValid tok secret
  · simp only [hs, if_pos]
    cases hexp : tok.payload.exp with
    | none =>
      simp only [hexp, Option.some.injEq, true_and]
      constructor
      · rintro rfl
        exact ⟨fun ⟨e, he, _⟩ => by simp [hexp] at he, rfl⟩
      · rintro ⟨-, rfl⟩; rfl
    | some e =>
      by_cases hle : e ≤ now
      · simp only [hexp, hle, if_pos, true_and]
        constructor
        · intro h; exact absurd h (by simp)
        · rintro ⟨hne, -⟩; exact absurd ⟨e, rfl, hle⟩ hne
      · simp only [hexp, hle, if_neg, not_false_iff, Option.some.injEq, true_and]
        constructor
        · rintro rfl
          refine ⟨?_, rfl⟩
          rintro ⟨e', he', hle'⟩
          exact hle (he' ▸ hle')
        · rintro ⟨-, rfl⟩; rfl
  · simp [hs]

theorem validateJWT_eq_some (tok : Token) (secret : String) (now : Int)
    (u : String) :
    validateJWT tok secret now = some u ↔
      sigValid tok secret ∧ ¬ expElapsed tok.payload now ∧
        subOk tok.payload u := by
  unfold validateJWT subOk
  cases hv : jwtVerify tok secret now with
  | none =>
    constructor
    · intro h; exact absurd h (by simp)
    · rintro ⟨hs, hne, hsub, hu⟩
      have h2 := (jwtVerify_eq_some tok secret now tok.payload).mpr ⟨hs, hne, rfl⟩
      rw [hv] at h2
      exact absurd h2 (by simp)
  | some decoded =>
    obtain ⟨hs, hne, rfl⟩ := (jwtVerify_eq_some tok secret now decoded).mp hv
    simp only [hs, hne, not_false_iff, true_and]
    cases hsub : tok.payload.sub with
    | none => simp [hsub]
    | some sc =>
      cases sc with
      | jstr s =>
        simp only [hsub, Option.some.injEq, SubClaim.jstr.injEq]
        by_cases hse : s = ""
        · subst hse
          simp only [if_pos rfl]
          constructor
          · intro h; exact absurd h (by simp)
          · rintro ⟨h, hu⟩; exact absurd h.symm hu
        · simp only [if_neg hse, Option.some.injEq]
          constructor
          · rintro rfl; exact ⟨rfl, hse⟩
          · rintro ⟨rfl, -⟩; rfl
      | jother => simp [hsub]

/-- C1 (counterexample): the claim quantifies over every user id and every
secret, but `validateJWT` rejects the empty-string subject (`!decoded.sub` is
true for `''`), so the round trip fails at `u = ""`, `ttl = 1`, `s = "k"`;
and `jwt.sign` throws on a falsy secret, so it also fails at `u = "u"`,
`ttl = 1`, `s = ""`. -/
theorem makeJWT_roundtrip_counterexample :
    (makeJWT "" 1 "k" 0).bind (fun tok => validateJWT tok "k" 0) ≠
      some "" ∧
    (makeJWT "u" 1 "" 0).bind (fun tok => validateJWT tok "" 0) ≠
      some "u" := by decide

/-- C1 (amended): for every *non-empty* user id `u`, positive ttl, and
*non-empty* secret `s`, verifying an access token immediately after issuing it
with the same secret returns `u`:
`validateJWT (makeJWT u ttl s) s = u` at the issuance instant. -/
theorem makeJWT_validateJWT_roundtrip (u s : String) (ttl now : Int)
    (hu : u ≠ "") (hs : s ≠ "") (httl : 0 < ttl) :
    ∃ tok, makeJWT u ttl s now = some tok ∧
      validateJWT tok s now = some u := by
  refine ⟨⟨makeJWTPayload u ttl now, (makeJWTPayload u ttl now, s)⟩, ?_, ?_⟩
  · unfold makeJWT
    rw [if_neg hs]
  · rw [validateJWT_eq_some]
    refine ⟨⟨rfl, hs⟩, ?_, rfl, hu⟩
    rintro ⟨e, he, hle⟩
    rw [show (makeJWTPayload u ttl now).exp = some (now + ttl) from rfl,
      Option.some.injEq] at he
    subst he
    omega

theorem makeJWT_validateJWT_roundtrip_witness :
    ∃ tok, makeJWT "andy" 60 "esta es mi secreto" 0 = some tok ∧
      validateJWT tok "esta es mi secreto" 0 = some "andy" :=
  makeJWT_validateJWT_roundtrip "andy" "esta es mi secreto" 60 0
    (by decide) (by decide) (by decide)

/-- C2: `validateJWT` fails exactly when the signature is invalid, or the
token carries an elapsed `exp` claim (`expiresAt <= now`), or the subject
claim is absent / not a string / empty (user ids are opaque strings in this
codebase, so a well-formed user id is formalized as a non-empty string);
moreover every failure is the single undifferentiated value `none`, mirroring
the one `Error('Error validating token')` thrown by the source: two failing
calls are indistinguishable to the caller. -/
theorem validateJWT_failure_characterization (tok : Token) (secret : String)
    (now : Int) :
    (validateJWT tok secret now = none ↔
      ¬ sigValid tok secret ∨ expElapsed tok.payload now ∨
        ∀ u, ¬ subOk tok.payload u) ∧
    (∀ tok' secret' now', validateJWT tok' secret' now' = none →
      validateJWT tok secret now = none →
      validateJWT tok' secret' now' = validateJWT tok secret now) := by
  constructor
  · constructor
    · intro h
      by_contra hc
      push_neg at hc
      obtain ⟨hs, hne, u, hu⟩ := hc
      have h2 := (validateJWT_eq_some tok secret now u).mpr ⟨hs, hne, hu⟩
      rw [h] at h2
      exact absurd h2 (by simp)
    · intro h
      cases hv : validateJWT tok secret now with
      | none => rfl
      | some u =>
        obtain ⟨hs, hne, hsub⟩ := (validateJWT_eq_some tok secret now u).mp hv
        rcases h with h | h | h
        · exact absurd hs h
        · exact absurd h hne
        · exact absurd hsub (h u)
  · intro tok' secret' now' h1 h2
    rw [h1, h2]

theorem validateJWT_failure_characterization_witness :
    validateJWT ⟨⟨none, none, none, none⟩, (⟨none, none, none, none⟩, "k")⟩
      "wrong" 0 = none :=
  ((validateJWT_failure_characterization
      ⟨⟨none, none, none, none⟩, (⟨none, none, none, none⟩, "k")⟩
      "wrong" 0).1).mpr (Or.inl (by decide))

/-- C10: verification checks only the signature, the expiry, and that the
subject is a present, non-empty string.  The issuer claim is never compared
against `'chirpy'` (the theorem holds for an arbitrary `iss`, including
`none`), and no user-id format check is applied to the subject: any non-empty
string subject of a correctly signed, unexpired token is returned as the
authenticated user id. -/
theorem validateJWT_ignores_issuer_and_id_format (p : Payload) (secret : String)
    (now : Int) (s : String)
    (hsub : p.sub = some (SubClaim.jstr s)) (hs : s ≠ "") (hsec : secret ≠ "")
    (hexp : ∀ e, p.exp = some e → now < e) :
    validateJWT ⟨p, (p, secret)⟩ secret now = some s := by
  rw [validateJWT_eq_some]
  refine ⟨⟨rfl, hsec⟩, ?_, hsub, hs⟩
  rintro ⟨e, he, hle⟩
  exact absurd hle (not_le.mpr (hexp e he))

theorem validateJWT_ignores_issuer_witness :
    validateJWT
      ⟨⟨some "evil issuer", some (SubClaim.jstr "not a uuid"), none, none⟩,
        (⟨some "evil issuer", some (SubClaim.jstr "not a uuid"), none, none⟩,
          "k")⟩ "k" 0 = some "not a uuid" :=
  validateJWT_ignores_issuer_and_id_format
    ⟨some "evil issuer", some (SubClaim.jstr "not a uuid"), none, none⟩
    "k" 0 "not a uuid" rfl (by decide) (by decide)
    (fun e he => absurd he (by simp))

end JWTClaims

/-! ## Refresh-token store (`src/db/queries/refreshToken.ts`, `users.ts`) -/

/-- A row of the `refresh_tokens` table: owning user id, expiry, nullable
revocation time, plus the bookkeeping `created_at` / `updated_at` columns the
revocation UPDATE also touches. -/
structure RTRecord where
  userId : String
  expiresAt : Int
  revokedAt : Option Int
  createdAt : Int
  updatedAt : Int
deriving DecidableEq, Repr

/-- The `refresh_tokens` table, keyed by the opaque token string (its primary
key). -/
abbrev RTStore := List (String × RTRecord)

/-- The `users` table restricted to the columns the refresh join selects:
`id ↦ email`. -/
abbrev UserTable := List (String × String)

/-- `createRefreshToken` from `src/db/queries/refreshToken.ts`: INSERT a row
with the given token, user and expiry; `revoked_at` starts null and the
timestamp columns are set to the insertion time by the schema defaults. -/
def createRefreshToken (token userId : String) (expiresAt now : Int)
    (db : RTStore) : RTStore :=
  (token, { userId := userId, expiresAt := expiresAt, revokedAt := none,
            createdAt := now, updatedAt := now }) :: db

/-- `revokeRefreshToken` from `src/db/queries/refreshToken.ts`:
`UPDATE refresh_tokens SET revoked_at = now(), updated_at = now()
WHERE token = $token` — note: unconditionally, with no
`revoked_at IS NULL` guard. -/
def revokeRefreshToken (token : String) (now : Int) (db : RTStore) : RTStore :=
  db.map fun row =>
    if row.1 = token then
      (row.1, { row.2 with revokedAt := some now, updatedAt := now })
    else row

/-- Raw lookup of the row stored under a token key. -/
def lookupToken (db : RTStore) (token : String) : Option RTRecord :=
  (db.find? fun row => row.1 == token).map Prod.snd

/-- The WHERE-clause and SELECT-projection of `getUserFromRefreshToken`
(`src/db/queries/users.ts`): keep a row iff its token matches, it is not
revoked, and `expires_at > now()`; project it through the inner join with
`users` to `{id, email}`. -/
def refreshRowSelect (users : UserTable) (token : String) (now : Int)
    (row : String × RTRecord) : Option (String × String) :=
  if row.1 = token ∧ row.2.revokedAt = none ∧ now < row.2.expiresAt then
    (users.find? fun u => u.1 == row.2.userId).map fun u => (u.1, u.2)
  else none

/-- `getUserFromRefreshToken` from `src/db/queries/users.ts`: the join-select
with `limit 1`, returning `rows[0] ?? null`. -/
def getUserFromRefreshToken (db : RTStore) (users : UserTable)
    (token : String) (now : Int) : Option (String × String) :=
  (db.filterMap (refreshRowSelect users token now)).head?

section BearerClaims

/-- C8: bearer-token extraction succeeds with token `t` iff the authorization
header is literally present and equal to `"Bearer " ++ t` (exact
case-sensitive scheme keyword and single space).  A missing header, a wrong
scheme, and any other malformed value are all the same observable outcome
`none` — the source throws a plain `Error` on both failure paths and every
caller catches it into the same 401 response. -/
theorem getBearerToken_spec (h : Option String) (t : String) :
    getBearerToken h = some t ↔ h = some ("Bearer " ++ t) := by
  cases h with
  | none => simp [getBearerToken]
  | some s =>
    show (if "Bearer ".data.isPrefixOf s.data then
        some (String.mk (s.data.drop 7)) else none) = some t ↔ _
    by_cases hp : "Bearer ".data.isPrefixOf s.data
    · rw [if_pos hp]
      rw [List.isPrefixOf_iff_prefix, List.prefix_iff_eq_append] at hp
      constructor
      · intro h1
        rw [Option.some.injEq] at h1
        subst h1
        rw [Option.some.injEq, String.ext_iff, String.data_append]
        rw [show (String.mk (s.data.drop 7)).data = s.data.drop 7 from rfl]
        rw [show ("Bearer ".data.length) = 7 from by decide] at hp
        exact hp.symm
      · intro h1
        rw [Option.some.injEq] at h1
        rw [Option.some.injEq, String.ext_iff]
        rw [show (String.mk (s.data.drop 7)).data = s.data.drop 7 from rfl]
        subst h1
        rw [String.data_append]
        rw [show (7 : Nat) = "Bearer ".data.length from by decide]
        exact List.drop_left "Bearer ".data t.data
    · rw [if_neg hp]
      constructor
      · intro h1
        exact absurd h1 (by simp)
      · intro h1
        rw [Option.some.injEq] at h1
        subst h1
        exfalso
        apply hp
        rw [List.isPrefixOf_iff_prefix]
        exact ⟨t.data, (String.data_append _ _).symm⟩

end BearerClaims

section RefreshStoreLemmas

theorem getUser_none_of_no_key (db : RTStore) (users : UserTable)
    (token : String) (now : Int) (h : ∀ row ∈ db, row.1 ≠ token) :
    getUserFromRefreshToken db users token now = none := by
  induction db with
  | nil => rfl
  | cons row rest ih =>
    unfold getUserFromRefreshToken
    rw [List.filterMap_cons]
    have hsel : refreshRowSelect users token now row = none := by
      unfold refreshRowSelect
      rw [if_neg]
      rintro ⟨h1, -, -⟩
      exact h row (List.mem_cons_self _ _) h1
    simp only [hsel]
    exact ih fun r hr => h r (List.mem_cons_of_mem _ hr)

theorem lookupToken_revokeRefreshToken (db : RTStore) (token t : String)
    (now : Int) :
    lookupToken (revokeRefreshToken token now db) t =
      (lookupToken db t).map fun r =>
        if t = token then { r with revokedAt := some now, updatedAt := now }
        else r := by
  unfold lookupToken revokeRefreshToken
  rw [List.find?_map]
  have hpred : ((fun row : String × RTRecord => row.1 == t) ∘ fun row =>
      if row.1 = token then
        (row.1, { row.2 with revokedAt := some now, updatedAt := now })
      else row) = fun row : String × RTRecord => row.1 == t := by
    funext row
    by_cases h : row.1 = token <;> simp [h]
  rw [hpred]
  cases hf : db.find? (fun row : String × RTRecord => row.1 == t) with
  | none => rfl
  | some row0 =>
    have hkey : row0.1 = t := by simpa using List.find?_some hf
    simp only [Option.map_some']
    rw [hkey]
    by_cases h : t = token <;> simp [h]

theorem getUser_revoked_token_none (db : RTStore) (users : UserTable)
    (token : String) (now nowR : Int) :
    getUserFromRefreshToken (revokeRefreshToken token nowR db) users token
      now = none := by
  induction db with
  | nil => rfl
  | cons row rest ih =>
    unfold revokeRefreshToken getUserFromRefreshToken
    rw [List.map_cons, List.filterMap_cons]
    have hsel : refreshRowSelect users token now
        (if row.1 = token then
          (row.1, { row.2 with revokedAt := some nowR, updatedAt := nowR })
        else row) = none := by
      unfold refreshRowSelect
      by_cases h : row.1 = token
      · rw [if_pos h, if_neg]
        rintro ⟨-, h2, -⟩
        exact absurd h2 (by simp)
      · rw [if_neg h, if_neg]
        rintro ⟨h1, -, -⟩
        exact h h1
    simp only [hsel]
    exact ih

theorem getUser_cons (row : String × RTRecord) (rest : RTStore)
    (users : UserTable) (token : String) (now : Int) :
    getUserFromRefreshToken (row :: rest) users token now =
      match refreshRowSelect users token now row with
      | some v => some v
      | none => getUserFromRefreshToken rest users token now := by
  unfold getUserFromRefreshToken
  rw [List.filterMap_cons]
  cases refreshRowSelect users token now row <;> rfl

theorem refreshRowSelect_none_of_dead (users : UserTable) (token : String)
    (now : Int) (row : String × RTRecord)
    (h : ¬(row.1 = token ∧ row.2.revokedAt = none ∧ now < row.2.expiresAt)) :
    refreshRowSelect users token now row = none := by
  unfold refreshRowSelect
  rw [if_neg h]

theorem refreshRowSelect_live (users : UserTable) (token : String)
    (now : Int) (row : String × RTRecord)
    (h : row.1 = token ∧ row.2.revokedAt = none ∧ now < row.2.expiresAt) :
    refreshRowSelect users token now row =
      (users.find? fun u => u.1 == row.2.userId).map fun u => (u.1, u.2) := by
  unfold refreshRowSelect
  rw [if_pos h]

end RefreshStoreLemmas

section ResolveClaims

/-- C3: `getUserFromRefreshToken` returns a user id iff the refresh-token row
exists, its `revoked_at` is null, and its `expires_at` is strictly in the
future (hypotheses: the token column is a unique key and every row's `userId`
references an existing user, both enforced by the schema).  Every other case
— expired, revoked, or never issued — is the same observable value `none`.
Moreover, after `revokeRefreshToken t`, the lookup returns `none`
unconditionally even though the row still exists with its expiry intact. -/
theorem getUserFromRefreshToken_spec (db : RTStore) (users : UserTable)
    (token : String) (now nowR : Int)
    (huniq : (db.map Prod.fst).Nodup)
    (hfk : ∀ row ∈ db, ∃ u ∈ users, u.1 = row.2.userId) :
    (∀ uid, (getUserFromRefreshToken db users token now).map Prod.fst =
        some uid ↔
      ∃ r, lookupToken db token = some r ∧ r.revokedAt = none ∧
        now < r.expiresAt ∧ r.userId = uid) ∧
    getUserFromRefreshToken (revokeRefreshToken token nowR db) users token
      now = none ∧
    (lookupToken (revokeRefreshToken token nowR db) token).isSome =
      (lookupToken db token).isSome ∧
    (∀ r, lookupToken (revokeRefreshToken token nowR db) token = some r →
      ∃ r0, lookupToken db token = some r0 ∧ r.expiresAt = r0.expiresAt) := by
  refine ⟨?_, getUser_revoked_token_none db users token now nowR, ?_, ?_⟩
  · intro uid
    induction db with
    | nil => simp [getUserFromRefreshToken, lookupToken]
    | cons row rest ih =>
      obtain ⟨t0, r0⟩ := row
      rw [List.map_cons, List.nodup_cons] at huniq
      obtain ⟨hnotin, huniq2⟩ := huniq
      have hfk2 : ∀ row ∈ rest, ∃ u ∈ users, u.1 = row.2.userId :=
        fun row hr => hfk row (List.mem_cons_of_mem _ hr)
      by_cases ht : t0 = token
      · subst ht
        have hlook : lookupToken ((t0, r0) :: rest) t0 = some r0 := by
          unfold lookupToken
          rw [List.find?_cons_of_pos _ (by simp)]
          rfl
        rw [hlook, getUser_cons]
        by_cases hlive : r0.revokedAt = none ∧ now < r0.expiresAt
        · obtain ⟨u0, hu0mem, hu0id⟩ := hfk (t0, r0) (List.mem_cons_self _ _)
          have hfindSome : (users.find? fun u => u.1 == r0.userId).isSome := by
            rw [List.find?_isSome]
            exact ⟨u0, hu0mem, by simp [hu0id]⟩
          obtain ⟨u1, hu1⟩ := Option.isSome_iff_exists.mp hfindSome
          have hid : u1.1 = r0.userId := by simpa using List.find?_some hu1
          rw [refreshRowSelect_live users t0 now (t0, r0)
            ⟨rfl, hlive.1, hlive.2⟩, hu1, Option.map_some']
          simp only [Option.map_some', Option.some.injEq]
          constructor
          · rintro rfl
            exact ⟨r0, rfl, hlive.1, hlive.2, hid.symm⟩
          · rintro ⟨r, rfl, -, -, hruid⟩
            exact hid.trans hruid
        · rw [refreshRowSelect_none_of_dead users t0 now (t0, r0)
            (fun hc => hlive ⟨hc.2.1, hc.2.2⟩)]
          have hnone : getUserFromRefreshToken rest users t0 now = none := by
            apply getUser_none_of_no_key
            intro rrow hr hkey
            have hm := List.mem_map_of_mem Prod.fst hr
            rw [hkey] at hm
            exact hnotin hm
          show (getUserFromRefreshToken rest users t0 now).map Prod.fst =
            some uid ↔ _
          rw [hnone]
          simp only [Option.map_none', Option.some.injEq]
          constructor
          · intro h
            exact absurd h (by simp)
          · rintro ⟨r, rfl, h2, h3, -⟩
            exact absurd ⟨h2, h3⟩ hlive
      · rw [getUser_cons, refreshRowSelect_none_of_dead users token now
          (t0, r0) (fun hc => ht hc.1)]
        show (getUserFromRefreshToken rest users token now).map Prod.fst =
          some uid ↔ _
        have hlk : lookupToken ((t0, r0) :: rest) token =
            lookupToken rest token := by
          unfold lookupToken
          rw [List.find?_cons_of_neg _ (by simp [ht])]
        rw [hlk]
        exact ih huniq2 hfk2
  · rw [lookupToken_revokeRefreshToken]
    cases lookupToken db token <;> rfl
  · intro r hr
    rw [lookupToken_revokeRefreshToken] at hr
    cases h0 : lookupToken db token with
    | none => rw [h0] at hr; exact absurd hr (by simp)
    | some r0 =>
      rw [h0, Option.map_some', Option.some.injEq] at hr
      refine ⟨r0, rfl, ?_⟩
      subst hr
      by_cases h : token = token <;> simp

theorem getUserFromRefreshToken_spec_witness :
    (getUserFromRefreshToken
        [("tok1", ⟨"u1", 100, none, 0, 0⟩)] [("u1", "a@example.com")]
        "tok1" 50).map Prod.fst = some "u1" ∧
    getUserFromRefreshToken
      (revokeRefreshToken "tok1" 60
        [("tok1", ⟨"u1", 100, none, 0, 0⟩)]) [("u1", "a@example.com")]
      "tok1" 50 = none := by
  have h := getUserFromRefreshToken_spec
    [("tok1", ⟨"u1", 100, none, 0, 0⟩)] [("u1", "a@example.com")]
    "tok1" 50 60 (by decide)
    (by
      intro row hrow
      refine ⟨("u1", "a@example.com"), by decide, ?_⟩
      have : row = ("tok1", (⟨"u1", 100, none, 0, 0⟩ : RTRecord)) := by
        simpa using hrow
      rw [this])
  exact ⟨(h.1 "u1").mpr ⟨⟨"u1", 100, none, 0, 0⟩, by decide, rfl, by decide,
    rfl⟩, h.2.1⟩

end ResolveClaims

/-! ## Refresh-token lifecycle (C4, C5) -/

/-- A core operation on the refresh-token table, as invoked by the handlers:
insert on login, read-only resolve on refresh, revoke on revoke. -/
inductive RTOp where
  | create (token userId : String) (expiresAt now : Int)
  | resolve (users : UserTable) (token : String) (now : Int)
  | revoke (token : String) (now : Int)

def applyOp (db : RTStore) : RTOp → RTStore
  | RTOp.create token userId expiresAt now =>
      createRefreshToken token userId expiresAt now db
  | RTOp.resolve _ _ _ => db
  | RTOp.revoke token now => revokeRefreshToken token now db

def applyOps (db : RTStore) (ops : List RTOp) : RTStore :=
  ops.foldl applyOp db

section LifecycleClaims

theorem applyOp_preserves (db : RTStore) (op : RTOp) (t : String)
    (r : RTRecord) (hmem : (t, r) ∈ db) :
    ∃ r', (t, r') ∈ applyOp db op ∧ r'.userId = r.userId ∧
      r'.expiresAt = r.expiresAt ∧ r'.createdAt = r.createdAt ∧
      (r.revokedAt.isSome → r'.revokedAt.isSome) := by
  cases op with
  | create token userId expiresAt now =>
    exact ⟨r, List.mem_cons_of_mem _ hmem, rfl, rfl, rfl, fun h => h⟩
  | resolve users token now =>
    exact ⟨r, hmem, rfl, rfl, rfl, fun h => h⟩
  | revoke token now =>
    have hmap := List.mem_map_of_mem (fun row : String × RTRecord =>
      if row.1 = token then
        (row.1, { row.2 with revokedAt := some now, updatedAt := now })
      else row) hmem
    by_cases h : t = token
    · refine ⟨{ r with revokedAt := some now, updatedAt := now }, ?_,
        rfl, rfl, rfl, fun _ => by simp⟩
      have heval : (fun row : String × RTRecord =>
          if row.1 = token then
            (row.1, { row.2 with revokedAt := some now, updatedAt := now })
          else row) (t, r) =
          (t, { r with revokedAt := some now, updatedAt := now }) := by
        simp [h]
      exact heval ▸ hmap
    · refine ⟨r, ?_, rfl, rfl, rfl, fun hh => hh⟩
      have heval : (fun row : String × RTRecord =>
          if row.1 = token then
            (row.1, { row.2 with revokedAt := some now, updatedAt := now })
          else row) (t, r) = (t, r) := by
        simp [h]
      exact heval ▸ hmap

/-- C4 (counterexample): revocation is not the one-shot null-to-set
transition the claim states.  `revokeRefreshToken` has no
`revoked_at IS NULL` guard: re-revoking a token moves the already-set
revocation time from 5 to 9, and even the first revoke updates a field other
than the revocation time (the `updated_at` column). -/
theorem refreshRecord_mutation_counterexample :
    (lookupToken (revokeRefreshToken "tok" 5
        (createRefreshToken "tok" "u1" 100 0 [])) "tok").map
      RTRecord.revokedAt = some (some 5) ∧
    (lookupToken (revokeRefreshToken "tok" 9 (revokeRefreshToken "tok" 5
        (createRefreshToken "tok" "u1" 100 0 []))) "tok").map
      RTRecord.revokedAt = some (some 9) ∧
    (lookupToken (revokeRefreshToken "tok" 5
        (createRefreshToken "tok" "u1" 100 0 [])) "tok").map
      RTRecord.updatedAt ≠
      (lookupToken (createRefreshToken "tok" "u1" 100 0 []) "tok").map
        RTRecord.updatedAt := by decide

/-- C4 (amended): along every sequence of core operations, a stored record's
`userId`, `expiresAt`, `createdAt` and token key are immutable, and its
revocation time never reverts from set to null.  (The claim's stronger
reading fails: a revoke also refreshes the bookkeeping `updatedAt` column,
and a second revoke of the same token overwrites the already-set revocation
time with the later clock value.) -/
theorem applyOps_record_evolution (db : RTStore) (ops : List RTOp)
    (t : String) (r : RTRecord) (hmem : (t, r) ∈ db) :
    ∃ r', (t, r') ∈ applyOps db ops ∧ r'.userId = r.userId ∧
      r'.expiresAt = r.expiresAt ∧ r'.createdAt = r.createdAt ∧
      (r.revokedAt.isSome → r'.revokedAt.isSome) := by
  induction ops generalizing db r with
  | nil => exact ⟨r, hmem, rfl, rfl, rfl, fun h => h⟩
  | cons op rest ih =>
    obtain ⟨r1, h1, hu1, he1, hc1, hrev1⟩ := applyOp_preserves db op t r hmem
    obtain ⟨r2, h2, hu2, he2, hc2, hrev2⟩ := ih (applyOp db op) r1 h1
    exact ⟨r2, h2, hu2.trans hu1, he2.trans he1, hc2.trans hc1,
      fun h => hrev2 (hrev1 h)⟩

theorem applyOps_record_evolution_witness :
    ∃ r', ("tok", r') ∈ applyOps [("tok", ⟨"u1", 100, none, 0, 0⟩)]
        [RTOp.revoke "tok" 5] ∧ r'.userId = "u1" ∧ r'.expiresAt = 100 ∧
      r'.createdAt = 0 ∧
      ((⟨"u1", 100, none, 0, 0⟩ : RTRecord).revokedAt.isSome →
        r'.revokedAt.isSome) :=
  applyOps_record_evolution [("tok", ⟨"u1", 100, none, 0, 0⟩)]
    [RTOp.revoke "tok" 5] "tok" ⟨"u1", 100, none, 0, 0⟩ (by decide)

/-- Outcome of `handleRevoke` as seen by the HTTP caller. -/
inductive RevokeResult where
  | unauthorized
  | noContent
deriving DecidableEq, Repr

/-- `handleRevoke` from `src/index.ts`: extract the bearer token (401 on
failure), then unconditionally revoke it and answer 204. -/
def handleRevoke (auth : Option String) (db : RTStore) (now : Int) :
    RevokeResult × RTStore :=
  match getBearerToken auth with
  | none => (RevokeResult.unauthorized, db)
  | some token => (RevokeResult.noContent, revokeRefreshToken token now db)

theorem getBearerToken_bearer (t : String) :
    getBearerToken (some ("Bearer " ++ t)) = some t := by
  show (if "Bearer ".data.isPrefixOf ("Bearer " ++ t).data then
      some (String.mk (("Bearer " ++ t).data.drop 7)) else none) = some t
  have hp : "Bearer ".data.isPrefixOf ("Bearer " ++ t).data := by
    rw [List.isPrefixOf_iff_prefix]
    exact ⟨t.data, (String.data_append _ _).symm⟩
  rw [if_pos hp, Option.some.injEq, String.ext_iff]
  rw [show (String.mk (("Bearer " ++ t).data.drop 7)).data =
    ("Bearer " ++ t).data.drop 7 from rfl]
  rw [String.data_append, show (7 : Nat) = "Bearer ".data.length from by decide]
  exact List.drop_left "Bearer ".data t.data

/-- C5: revoking is idempotent and always succeeds.  Revoking a token with no
record leaves the store literally unchanged; revoking an already-revoked
token changes nothing observable through `getUserFromRefreshToken` (for any
token, user table, and time); and with a bearer credential present,
`handleRevoke` unconditionally answers 204 — there is no error path. -/
theorem revokeRefreshToken_idempotent (db : RTStore) (token : String)
    (now : Int) :
    ((∀ row ∈ db, row.1 ≠ token) → revokeRefreshToken token now db = db) ∧
    ((∀ row ∈ db, row.1 = token → row.2.revokedAt.isSome) →
      ∀ users t' now', getUserFromRefreshToken
          (revokeRefreshToken token now db) users t' now' =
        getUserFromRefreshToken db users t' now') ∧
    (∀ t db2 now2, (handleRevoke (some ("Bearer " ++ t)) db2 now2).1 =
      RevokeResult.noContent) := by
  refine ⟨?_, ?_, ?_⟩
  · intro h
    induction db with
    | nil => rfl
    | cons row rest ih =>
      have h1 : row.1 ≠ token := h row (List.mem_cons_self _ _)
      have h2 := ih (fun r hr => h r (List.mem_cons_of_mem _ hr))
      unfold revokeRefreshToken at h2 ⊢
      simp only [List.map_cons]
      rw [if_neg h1, h2]
  · intro h users t' now'
    induction db with
    | nil => rfl
    | cons row rest ih =>
      have hrest := ih (fun r hr htk => h r (List.mem_cons_of_mem _ hr) htk)
      rw [show revokeRefreshToken token now (row :: rest) =
        (if row.1 = token then
          (row.1, { row.2 with revokedAt := some now, updatedAt := now })
        else row) :: revokeRefreshToken token now rest from rfl]
      rw [getUser_cons, getUser_cons]
      by_cases h1 : row.1 = token
      · rw [if_pos h1]
        have hrs : row.2.revokedAt.isSome :=
          h row (List.mem_cons_self _ _) h1
        rw [refreshRowSelect_none_of_dead users t' now'
          (row.1, { row.2 with revokedAt := some now, updatedAt := now })
          (fun hc => by exact absurd hc.2.1 (by simp))]
        rw [refreshRowSelect_none_of_dead users t' now' row
          (fun hc => by rw [hc.2.1] at hrs; exact absurd hrs (by simp))]
        exact hrest
      · rw [if_neg h1]
        cases hsel : refreshRowSelect users t' now' row with
        | some v => rfl
        | none => exact hrest
  · intro t db2 now2
    unfold handleRevoke
    rw [getBearerToken_bearer]

theorem revokeRefreshToken_idempotent_witness :
    revokeRefreshToken "b" 7 [("a", ⟨"u1", 100, some 3, 0, 3⟩)] =
      [("a", ⟨"u1", 100, some 3, 0, 3⟩)] ∧
    getUserFromRefreshToken
        (revokeRefreshToken "a" 7 [("a", ⟨"u1", 100, some 3, 0, 3⟩)])
        [("u1", "e")] "a" 50 =
      getUserFromRefreshToken [("a", ⟨"u1", 100, some 3, 0, 3⟩)]
        [("u1", "e")] "a" 50 ∧
    (handleRevoke (some ("Bearer " ++ "a"))
      [("a", ⟨"u1", 100, some 3, 0, 3⟩)] 7).1 = RevokeResult.noContent := by
  refine ⟨(revokeRefreshToken_idempotent [("a", ⟨"u1", 100, some 3, 0, 3⟩)]
      "b" 7).1 (by decide),
    (revokeRefreshToken_idempotent [("a", ⟨"u1", 100, some 3, 0, 3⟩)]
      "a" 7).2.1 (by decide) [("u1", "e")] "a" 50,
    (revokeRefreshToken_idempotent [("a", ⟨"u1", 100, some 3, 0, 3⟩)]
      "a" 7).2.2 "a" [("a", ⟨"u1", 100, some 3, 0, 3⟩)] 7⟩

end LifecycleClaims

/-! ## Refresh flow (`handleRefresh` in `src/index.ts`) -/

/-- Outcome of `handleRefresh` as seen by the HTTP caller. -/
inductive RefreshResult where
  | unauthorized
  | serverError
  | ok (accessToken : Token)
deriving DecidableEq, Repr

/-- `handleRefresh` from `src/index.ts`: extract the bearer refresh token
(401 on failure), resolve it via `getUserFromRefreshToken` (401 when absent,
expired, or revoked), else mint a fresh one-hour access token for the owning
user.  No branch writes to the refresh-token store. -/
def handleRefresh (auth : Option String) (db : RTStore) (users : UserTable)
    (secret : String) (now : Int) : RefreshResult × RTStore :=
  match getBearerToken auth with
  | none => (RefreshResult.unauthorized, db)
  | some token =>
    match getUserFromRefreshToken db users token now with
    | none => (RefreshResult.unauthorized, db)
    | some user =>
      match makeJWT user.1 3600 secret now with
      | none => (RefreshResult.serverError, db)
      | some tok => (RefreshResult.ok tok, db)

/-- Repeated refresh calls with the same carrier at the given sequence of
times, threading the store through. -/
def refreshMany (auth : Option String) (users : UserTable) (secret : String) :
    List Int → RTStore → List RefreshResult × RTStore
  | [], db => ([], db)
  | now :: rest, db =>
    let step := handleRefresh auth db users secret now
    let next := refreshMany auth users secret rest step.2
    (step.1 :: next.1, next.2)

section RefreshFlowClaims

theorem handleRefresh_store_eq (auth : Option String) (db : RTStore)
    (users : UserTable) (secret : String) (now : Int) :
    (handleRefresh auth db users secret now).2 = db := by
  unfold handleRefresh
  split
  · rfl
  · split
    · rfl
    · split <;> rfl

theorem handleRefresh_ok (db : RTStore) (users : UserTable) (secret : String)
    (t : String) (now : Int) (user : String × String)
    (hsecret : secret ≠ "")
    (huser : getUserFromRefreshToken db users t now = some user) :
    handleRefresh (some ("Bearer " ++ t)) db users secret now =
      (RefreshResult.ok ⟨makeJWTPayload user.1 3600 now,
        (makeJWTPayload user.1 3600 now, secret)⟩, db) := by
  unfold handleRefresh
  rw [getBearerToken_bearer]
  show (match getUserFromRefreshToken db users t now with
    | none => (RefreshResult.unauthorized, db)
    | some user =>
      match makeJWT user.1 3600 secret now with
      | none => (RefreshResult.serverError, db)
      | some tok => (RefreshResult.ok tok, db)) = _
  rw [huser]
  show (match makeJWT user.1 3600 secret now with
    | none => (RefreshResult.serverError, db)
    | some tok => (RefreshResult.ok tok, db)) = _
  unfold makeJWT
  rw [if_neg hsecret]

/-- C7: the refresh operation never rotates or modifies the presented refresh
token or its record: every `handleRefresh` call — and every sequence of such
calls — leaves the refresh-token store exactly as it was, and the same live
refresh token keeps succeeding across arbitrarily many refresh calls (every
call at a time at which the token still resolves yields a fresh access
token). -/
theorem handleRefresh_no_rotation (db : RTStore) (users : UserTable)
    (secret : String) :
    (∀ auth now, (handleRefresh auth db users secret now).2 = db) ∧
    (∀ auth times, (refreshMany auth users secret times db).2 = db) ∧
    (∀ t times, secret ≠ "" →
      (∀ τ ∈ times, (getUserFromRefreshToken db users t τ).isSome) →
      ∀ res ∈ (refreshMany (some ("Bearer " ++ t)) users secret times db).1,
        ∃ tok, res = RefreshResult.ok tok) := by
  refine ⟨fun auth now => handleRefresh_store_eq auth db users secret now,
    ?_, ?_⟩
  · intro auth times
    induction times with
    | nil => rfl
    | cons now rest ih =>
      unfold refreshMany
      simp only [handleRefresh_store_eq]
      exact ih
  · intro t times hsecret
    induction times with
    | nil =>
      intro hlive res hres
      exact absurd hres (by simp [refreshMany])
    | cons now rest ih =>
      intro hlive res hres
      unfold refreshMany at hres
      simp only [handleRefresh_store_eq] at hres
      rw [List.mem_cons] at hres
      cases hres with
      | inl hcase =>
        subst hcase
        have hl := hlive now (List.mem_cons_self _ _)
        obtain ⟨user, huser⟩ := Option.isSome_iff_exists.mp hl
        refine ⟨⟨makeJWTPayload user.1 3600 now,
          (makeJWTPayload user.1 3600 now, secret)⟩, ?_⟩
        rw [handleRefresh_ok db users secret t now user hsecret huser]
      | inr hcase =>
        exact ih (fun τ hτ => hlive τ (List.mem_cons_of_mem _ hτ)) res hcase

theorem handleRefresh_no_rotation_witness :
    ∀ res ∈ (refreshMany (some ("Bearer " ++ "tok1")) [("u1", "e")] "k"
        [10, 20] [("tok1", ⟨"u1", 100, none, 0, 0⟩)]).1,
      ∃ tok, res = RefreshResult.ok tok :=
  (handleRefresh_no_rotation [("tok1", ⟨"u1", 100, none, 0, 0⟩)]
    [("u1", "e")] "k").2.2 "tok1" [10, 20] (by decide)
    (by
      intro τ hτ
      simp only [List.mem_cons, List.not_mem_nil, or_false] at hτ
      rcases hτ with rfl | rfl <;> decide)

end RefreshFlowClaims

/-! ## Response shaping (`handleCreateUser`, `handleLogin` in `src/index.ts`) -/

/-- A user row as loaded from the database: the drizzle `users` schema
columns, rendered as strings. -/
structure UserRow where
  id : String
  createdAt : String
  updatedAt : String
  email : String
  hashedPassword : String
deriving DecidableEq, Repr

/-- The JSON object for a full user row, as key/value pairs. -/
def userObj (u : UserRow) : List (String × String) :=
  [("id", u.id), ("createdAt", u.createdAt), ("updatedAt", u.updatedAt),
   ("email", u.email), ("hashedPassword", u.hashedPassword)]

/-- Rest-destructuring `const \x7b hashedPassword, ...rest \x7d = user`:
every key except the named one. -/
def omitKey (key : String) (obj : List (String × String)) :
    List (String × String) :=
  obj.filter fun kv => kv.1 != key

/-- The 201 body of `handleCreateUser`: the created user without the
`hashedPassword` key. -/
def handleCreateUserResponse (u : UserRow) : List (String × String) :=
  omitKey "hashedPassword" (userObj u)

/-- The 200 body of `handleLogin`: the user without `hashedPassword`, spread
together with the `token` and `refreshToken` keys. -/
def handleLoginResponse (u : UserRow) (jwtStr refreshToken : String) :
    List (String × String) :=
  omitKey "hashedPassword" (userObj u) ++
    [("token", jwtStr), ("refreshToken", refreshToken)]

section ResponseClaims

/-- C6: both paths that return a user object — successful registration
(`handleCreateUser`) and successful login (`handleLogin`) — strip the stored
credential hash: no key of either response body is `hashedPassword`. -/
theorem responses_exclude_hashedPassword (u : UserRow)
    (jwtStr refreshToken : String) :
    (∀ kv ∈ handleCreateUserResponse u, kv.1 ≠ "hashedPassword") ∧
    (∀ kv ∈ handleLoginResponse u jwtStr refreshToken,
      kv.1 ≠ "hashedPassword") := by
  constructor
  · intro kv hkv
    unfold handleCreateUserResponse omitKey at hkv
    rw [List.mem_filter] at hkv
    simpa using hkv.2
  · intro kv hkv
    unfold handleLoginResponse at hkv
    rw [List.mem_append] at hkv
    cases hkv with
    | inl hmem =>
      unfold omitKey at hmem
      rw [List.mem_filter] at hmem
      simpa using hmem.2
    | inr hmem =>
      simp only [List.mem_cons, List.not_mem_nil, or_false] at hmem
      rcases hmem with rfl | rfl <;> simp

theorem responses_exclude_hashedPassword_witness :
    (("id", "1") : String × String).1 ≠ "hashedPassword" :=
  (responses_exclude_hashedPassword ⟨"1", "c", "u", "e", "h"⟩ "t" "r").1
    ("id", "1") (by decide)

end ResponseClaims

/-! ## Startup configuration (spec-modelled) -/

/-- The process-wide configuration.  The final `src/config.ts` — the
iteration defining the `secret` field read by `handleLogin`, `handleRefresh`
and `handleValidateChirp` — is not present under `src/`; only earlier
iterations without a secret are, so the secret handling is modelled from the
spec (see `loadConfig`). -/
structure APIConfig where
  fileserverHits : Nat
  dbUrl : String
  platform : String
  secret : String
deriving DecidableEq, Repr

/-- Modelled from the spec: startup configuration loading (the `secret` field
of `src/config.ts` is missing from `src/`).  The signing secret is read from
the environment once, at startup; when it is absent — or empty, which the
spec equally forbids running with — startup fails fast (`none`) instead of
producing a configuration. -/
def loadConfig (env : String → Option String) : Option APIConfig :=
  match env "DB_URL", env "PLATFORM", env "SECRET" with
  | some d, some p, some s => if s = "" then none else some ⟨0, d, p, s⟩
  | _, _, _ => none

section ConfigClaims

/-- C9: the signing secret is loaded from the environment at startup, and a
missing (or empty) secret makes startup fail fast: `loadConfig` yields no
configuration when the environment lacks the secret, and any configuration it
does yield carries exactly the non-empty secret found in the environment. -/
theorem loadConfig_secret_fail_fast (env : String → Option String) :
    ((env "SECRET" = none ∨ env "SECRET" = some "") →
      loadConfig env = none) ∧
    (∀ c, loadConfig env = some c →
      env "SECRET" = some c.secret ∧ c.secret ≠ "") := by
  constructor
  · intro h
    unfold loadConfig
    cases hd : env "DB_URL" with
    | none => rfl
    | some d =>
      cases hp : env "PLATFORM" with
      | none => rfl
      | some p =>
        cases hs : env "SECRET" with
        | none => rfl
        | some s =>
          show (if s = "" then none
            else some (⟨0, d, p, s⟩ : APIConfig)) = none
          rcases h with h | h
          · rw [hs] at h
            exact absurd h (by simp)
          · rw [hs, Option.some.injEq] at h
            rw [if_pos h]
  · intro c hc
    unfold loadConfig at hc
    rcases Option.eq_none_or_eq_some (env "DB_URL") with hd | ⟨d, hd⟩ <;>
      rw [hd] at hc
    · exact absurd hc (by simp)
    rcases Option.eq_none_or_eq_some (env "PLATFORM") with hp | ⟨p, hp⟩ <;>
      rw [hp] at hc
    · exact absurd hc (by simp)
    rcases Option.eq_none_or_eq_some (env "SECRET") with hs | ⟨s, hs⟩ <;>
      rw [hs] at hc
    · exact absurd hc (by simp)
    have hc2 : (if s = "" then none
        else some (⟨0, d, p, s⟩ : APIConfig)) = some c := hc
    by_cases hse : s = ""
    · rw [if_pos hse] at hc2
      exact absurd hc2 (by simp)
    · rw [if_neg hse, Option.some.injEq] at hc2
      subst hc2
      exact ⟨hs, hse⟩

theorem loadConfig_secret_fail_fast_witness :
    loadConfig (fun _ => none) = none ∧
    ((fun k : String => if k = "SECRET" then some "s3cret" else some "x")
        "SECRET" = some "s3cret" ∧ "s3cret" ≠ "") :=
  ⟨(loadConfig_secret_fail_fast (fun _ => none)).1 (Or.inl rfl),
   (loadConfig_secret_fail_fast
       (fun k => if k = "SECRET" then some "s3cret" else some "x")).2
     ⟨0, "x", "x", "s3cret"⟩ (by decide)⟩

end ConfigClaims
